import Mathlib

/-!
Verification of the Byzantine-tolerant Collecting State Transfer (BCST)
subsystem of concord-bft, shallowly embedded from
`src/reconfiguration/include/reconfiguration/ireconfiguration.hpp`.

The repository ships only the header declarations; where a claim depends on a
method body that the header merely declares, the definition is modelled from
the specification (its doc comment says so explicitly and names what is
missing).  Everything else is translated directly from the header source.
-/

namespace ConcordBCST

/-! ## Reconfiguration handler facade (namespace concord::reconfiguration)

`IReconfigurationHandler` declares thirteen virtual `handle` overloads, one per
reconfiguration command type, each with a body that only returns `true` and a
`ReconfigurationResponse&` parameter that the body never touches.  We embed
the closed set of command types as an inductive and the overload family as a
single function returning the `bool` result together with the (possibly
mutated) response. -/

/-- The closed set of reconfiguration command types dispatched by
`IReconfigurationHandler::handle` (lines 28-86 of the header). -/
inductive ReconfigurationCmd : Type
  | WedgeCommand
  | WedgeStatusRequest
  | GetVersionCommand
  | DownloadCommand
  | DownloadStatusCommand
  | InstallCommand
  | InstallStatusCommand
  | KeyExchangeCommand
  | AddRemoveCommand
  | AddRemoveStatus
  | LatestPrunableBlockRequest
  | PruneStatusRequest
  | PruneRequest
  deriving DecidableEq

/-- Embedding of `concord::messages::ReconfigurationResponse`, treated as an opaque record
of bytes: the default handlers never read or write it, so its exact fields are
irrelevant to the embedding. -/
structure ReconfigurationResponse : Type where
  bytes : List Nat
  deriving DecidableEq

/-- The default `IReconfigurationHandler::handle` overload family: every
overload body only returns `true`; the response reference is passed
through unmodified.  The second argument is the `uint64_t` sequence number,
unused by every default body. -/
def IReconfigurationHandler.handle (cmd : ReconfigurationCmd) (seqNum : Nat)
    (resp : ReconfigurationResponse) : Bool × ReconfigurationResponse :=
  match cmd, seqNum with
  | .WedgeCommand, _ => (true, resp)
  | .WedgeStatusRequest, _ => (true, resp)
  | .GetVersionCommand, _ => (true, resp)
  | .DownloadCommand, _ => (true, resp)
  | .DownloadStatusCommand, _ => (true, resp)
  | .InstallCommand, _ => (true, resp)
  | .InstallStatusCommand, _ => (true, resp)
  | .KeyExchangeCommand, _ => (true, resp)
  | .AddRemoveCommand, _ => (true, resp)
  | .AddRemoveStatus, _ => (true, resp)
  | .LatestPrunableBlockRequest, _ => (true, resp)
  | .PruneStatusRequest, _ => (true, resp)
  | .PruneRequest, _ => (true, resp)

/-! ## ItemData chunks and their buffering order (BCStateTran, lines 359-368)

`pendingItemDataMsgs` is a `std::set<ItemDataMsg*, compareItemDataMsg>`; the
comparator orders by `blockNumber` descending, then `chunkNumber` ascending.
We embed the chunk record with the fields the comparator and reassembly read,
model the set as a list kept strictly sorted by the comparator, and model
`std::set::insert`, which is a no-op when an equivalent element is present. -/

/-- Embedding of `ItemDataMsg` (§4.1.1 message 6): the fields relevant to buffering and
reassembly. -/
structure ItemDataMsg : Type where
  blockNumber : Nat
  totalNumberOfChunksInBlock : Nat
  chunkNumber : Nat
  data : List Nat
  deriving DecidableEq

/-- Translation of `BCStateTran::compareItemDataMsg::operator()` clause by clause:
when the block numbers differ, order by descending `blockNumber`; otherwise by
ascending `chunkNumber`. -/
def compareItemDataMsg (l r : ItemDataMsg) : Bool :=
  if l.blockNumber ≠ r.blockNumber then decide (l.blockNumber > r.blockNumber)
  else decide (l.chunkNumber < r.chunkNumber)

/-- Model of `std::set` insertion with comparator `compareItemDataMsg` over a sorted
list: insert before the first element the new chunk precedes; when an
equivalent element (neither compares before the other) is found, the set is
left unchanged, exactly as `std::set::insert` does. -/
def pendingInsert (x : ItemDataMsg) : List ItemDataMsg → List ItemDataMsg
  | [] => [x]
  | y :: ys =>
    if compareItemDataMsg x y then x :: y :: ys
    else if compareItemDataMsg y x then y :: pendingInsert x ys
    else y :: ys

/-! ## Virtual-block cache (BCStateTran, lines 209-325)

The header defines `kMaxVBlocksInCache = 28`, the key type
`DescOfVBlockForResPages` with its `operator<`, and the map
`cacheOfVirtualBlockForResPages` from keys to virtual-block bytes.  The body
of `setVBlockInCache` is not part of the header; the eviction policy is
modelled from the specification. -/

/-- Translation of `BCStateTran::kMaxVBlocksInCache`. -/
def kMaxVBlocksInCache : Nat := 28

/-- Embedding of `BCStateTran::DescOfVBlockForResPages`. -/
structure DescOfVBlockForResPages : Type where
  checkpointNum : Nat
  lastCheckpointKnownToRequester : Nat
  deriving DecidableEq

/-- Translation of `DescOfVBlockForResPages::operator<` clause by clause: when the
checkpoint numbers differ order by `checkpointNum`, otherwise by
`lastCheckpointKnownToRequester`. -/
def DescOfVBlockForResPages.lt (a b : DescOfVBlockForResPages) : Bool :=
  if a.checkpointNum ≠ b.checkpointNum then decide (a.checkpointNum < b.checkpointNum)
  else decide (a.lastCheckpointKnownToRequester < b.lastCheckpointKnownToRequester)

/-- Model of the cache `cacheOfVirtualBlockForResPages`: a `std::map` keyed by
`DescOfVBlockForResPages`, modelled as an association list kept strictly
ascending under `DescOfVBlockForResPages.lt`; virtual-block bytes are the
values. -/
abbrev VBlockCache : Type := List (DescOfVBlockForResPages × List Nat)

/-- Model of `std::map` keyed insertion under `DescOfVBlockForResPages.lt`: place the
new entry before the first strictly greater key; an equivalent key keeps the
existing entry (`std::map::insert` does not overwrite). -/
def vblockMapInsert (d : DescOfVBlockForResPages) (v : List Nat) :
    VBlockCache → VBlockCache
  | [] => [(d, v)]
  | e :: es =>
    if DescOfVBlockForResPages.lt d e.1 then (d, v) :: e :: es
    else if DescOfVBlockForResPages.lt e.1 d then e :: vblockMapInsert d v es
    else e :: es

/-- Modelled from the spec: the body of `BCStateTran::setVBlockInCache` is not
under src (the header only declares it).  Per §4.3, the cache is bounded by
`kMaxVBlocksInCache` and, on overflow, evicts the entry with the oldest
(smallest) `checkpointNum` first — the front of the ascending map, since the
key order is `checkpointNum`-primary. -/
def setVBlockInCache (cache : VBlockCache) (d : DescOfVBlockForResPages)
    (v : List Nat) : VBlockCache :=
  let c := vblockMapInsert d v cache
  if c.length > kMaxVBlocksInCache then c.drop 1 else c

/-! ## Checkpoint-summary certificates (BCStateTran, lines 332-345)

The header declares `CheckpointSummaryMsgCert` as an instantiation of
`MsgsCertificate` and the map `summariesCerts` from `checkpointNum` to
certificates; the implementation of `MsgsCertificate` is not under src. -/

/-- The payload of a `CheckpointSummary` message (§4.1.1 message 2) besides
its `checkpointNum`: the tuple the certificate compares across senders.
Digests are modelled as opaque numbers. -/
structure CheckpointSummaryPayload : Type where
  lastBlock : Nat
  digestOfLastBlock : Nat
  digestOfResPagesDescriptor : Nat
  deriving DecidableEq

/-- Modelled from the spec: the implementation of `MsgsCertificate` behind the
`CheckpointSummaryMsgCert` typedef is not under src.  Per §4.4 the collector
tracks, per `checkpointNum`, each sender and the payload it contributed; a
second message from a sender already recorded is ignored (duplicates are
idempotent, conflicting payloads first-wins). -/
def certAdd (contributions : List (Nat × CheckpointSummaryPayload))
    (sender : Nat) (payload : CheckpointSummaryPayload) :
    List (Nat × CheckpointSummaryPayload) :=
  if contributions.any (fun c => c.1 = sender) then contributions
  else (sender, payload) :: contributions

/-- Modelled from the spec: `MsgsCertificate::isComplete` is not under src.
Per §4.1.2 a certificate is complete when at least `f+1` identical payload
tuples have been collected for its `checkpointNum`. -/
def certIsComplete (fVal : Nat)
    (contributions : List (Nat × CheckpointSummaryPayload)) : Bool :=
  contributions.any
    (fun c => (contributions.filter (fun e => e.2 = c.2)).length ≥ fVal + 1)

/-- Fold a stream of `(sender, payload)` contributions for one
`checkpointNum` into the certificate state, starting from the empty
certificate. -/
def certBuild (msgs : List (Nat × CheckpointSummaryPayload)) :
    List (Nat × CheckpointSummaryPayload) :=
  msgs.foldl (fun acc m => certAdd acc m.1 m.2) []

/-! ## Digest-verified block acceptance (BCStateTran, lines 356-438)

The header declares `nextRequiredBlock_`, `digestOfNextRequiredBlock`,
`checkBlock` and `computeDigestOfBlock`; the bodies of `checkBlock` and of the
acceptance path in `processData` are not under src. -/

/-- The digest-relevant fetching state while in `GettingMissingBlocks`:
`nextRequiredBlock_`, `digestOfNextRequiredBlock`, and the log of blocks
written to `AppState` via `putBlock` (newest first). -/
structure BlockFetchState : Type where
  nextRequiredBlock : Nat
  digestOfNextRequiredBlock : Nat
  writtenBlocks : List (Nat × List Nat)
  deriving DecidableEq

/-- Modelled from the spec: the body of `BCStateTran::checkBlock` is not under
src (the header only declares it).  Per §4.1.3 it computes
`digestOfBlock(blockNum, bytes)` and compares it to the expected digest.
`computeDigestOfBlock` itself is a cryptographic primitive (out of scope per
§1), passed in as a function. -/
def checkBlock (computeDigestOfBlock : Nat → List Nat → Nat) (blockNum : Nat)
    (expectedBlockDigest : Nat) (block : List Nat) : Bool :=
  computeDigestOfBlock blockNum block = expectedBlockDigest

/-- Modelled from the spec: the acceptance step of `BCStateTran::processData`
for one reassembled block is not under src.  Per §4.1.3, on digest match the
block is written to `AppState`, `digestOfNextRequiredBlock` is reset from the
parent-digest field of the accepted block (extracted by `prevDigestOf`), and
`nextRequiredBlock` is decremented; on mismatch nothing is written. -/
def processBlockStep (computeDigestOfBlock : Nat → List Nat → Nat)
    (prevDigestOf : List Nat → Nat) (st : BlockFetchState) (block : List Nat) :
    BlockFetchState :=
  if checkBlock computeDigestOfBlock st.nextRequiredBlock
      st.digestOfNextRequiredBlock block then
    { nextRequiredBlock := st.nextRequiredBlock - 1
      digestOfNextRequiredBlock := prevDigestOf block
      writtenBlocks := (st.nextRequiredBlock, block) :: st.writtenBlocks }
  else st

/-! ## Checkpoint storage and pruning (BCStateTran, lines 163-165, 398-402)

The header declares `createCheckpointOfCurrentState`, `markCheckpointAsStable`
and the helper `deleteOldCheckpoints`; none of their bodies are under src. -/

/-- The stored-checkpoint portion of the datastore: the set of stored
`checkpointNum`s (each with its `CheckpointDesc`), the set of checkpoint
numbers that own a reserved-page snapshot, and the configured
`maxNumOfStoredCheckpoints`. -/
structure CheckpointStore : Type where
  checkpoints : List Nat
  resPageSnapshots : List Nat
  maxStoredCheckpoints : Nat
  deriving DecidableEq

/-- Modelled from the spec: the body of `BCStateTran::deleteOldCheckpoints`
is not under src.  Per §4.1 it deletes every stored checkpoint with
`checkpointNum < n - maxStoredCheckpoints + 1` together with its
reserved-page snapshot. -/
def deleteOldCheckpoints (n : Nat) (st : CheckpointStore) : CheckpointStore :=
  { st with
    checkpoints :=
      st.checkpoints.filter (fun c => ¬ c < n - st.maxStoredCheckpoints + 1)
    resPageSnapshots :=
      st.resPageSnapshots.filter
        (fun c => ¬ c < n - st.maxStoredCheckpoints + 1) }

/-- Modelled from the spec: the body of `BCStateTran::markCheckpointAsStable`
is not under src.  Per §4.1 it deletes every stored checkpoint below the
retention threshold, i.e. it runs `deleteOldCheckpoints`. -/
def markCheckpointAsStable (n : Nat) (st : CheckpointStore) : CheckpointStore :=
  deleteOldCheckpoints n st

/-- Modelled from the spec: the body of
`BCStateTran::createCheckpointOfCurrentState` is not under src.  Per §4.1 it
freezes the pending reserved pages into a snapshot indexed by `n` and writes
`CheckpointDesc(n, …)`; per §3 old checkpoints are pruned so that at most
`maxStoredCheckpoints` are retained, and the §8 scenario 5 expectation
(checkpoint 3 erased after `createCheckpointOfCurrentState(13)`) pins the
pruning to run here as well, via `deleteOldCheckpoints`. -/
def createCheckpointOfCurrentState (n : Nat) (st : CheckpointStore) :
    CheckpointStore :=
  let st := deleteOldCheckpoints n st
  { st with
    checkpoints := n :: st.checkpoints
    resPageSnapshots := n :: st.resPageSnapshots }

/-! ## Per-sender message sequence numbers (BCStateTran, lines 249-261)

The header declares `checkValidityAndSaveMsgSeqNum` and the map
`lastMsgSeqNumOfReplicas_`; the body is not under src. -/

/-- Point update of the `lastMsgSeqNumOfReplicas_` map. -/
def updateLast (lastMap : Nat → Nat) (replicaId msgSeqNum : Nat) : Nat → Nat :=
  fun r => if r = replicaId then msgSeqNum else lastMap r

/-- Modelled from the spec: the body of
`BCStateTran::checkValidityAndSaveMsgSeqNum` is not under src.  Per §4.1.1 a
message is accepted only when its `msgSeqNum` is strictly greater than the
previously accepted sequence number of the sender, or when the bounded resync/skew
window permits re-acceptance (the exact size of the window is left open by the
spec, so the verdict of the window predicate for this message is passed in as
`inResyncWindow`).  On acceptance the entry of the sender in
`lastMsgSeqNumOfReplicas_` is updated to `msgSeqNum`; a dropped message
leaves the map untouched. -/
def checkValidityAndSaveMsgSeqNum (lastMsgSeqNumOfReplicas : Nat → Nat)
    (replicaId msgSeqNum : Nat) (inResyncWindow : Bool) :
    Bool × (Nat → Nat) :=
  if msgSeqNum > lastMsgSeqNumOfReplicas replicaId ∨ inResyncWindow then
    (true, updateLast lastMsgSeqNumOfReplicas replicaId msgSeqNum)
  else (false, lastMsgSeqNumOfReplicas)

/-- Run a chronological list of inbound messages
`(replicaId, msgSeqNum, inResyncWindow)` through
`checkValidityAndSaveMsgSeqNum`, collecting the accepted `(replicaId,
msgSeqNum)` pairs in arrival order. -/
def runMsgSeqNums (lastMap : Nat → Nat) (acceptedLog : List (Nat × Nat)) :
    List (Nat × Nat × Bool) → (Nat → Nat) × List (Nat × Nat)
  | [] => (lastMap, acceptedLog)
  | (r, m, w) :: rest =>
    match checkValidityAndSaveMsgSeqNum lastMap r m w with
    | (true, newMap) => runMsgSeqNums newMap (acceptedLog ++ [(r, m)]) rest
    | (false, newMap) => runMsgSeqNums newMap acceptedLog rest

/-! ## Reserved pages (BCStateTran, lines 177-180)

The header declares `loadReservedPage`, `saveReservedPage` and
`zeroReservedPage`; their bodies are not under src. -/

/-- The reserved-page portion of the datastore: the page count and size, the
pending view (pageId to bytes) and the per-checkpoint snapshots
`(checkpointNum, pageId, bytes)`. -/
structure ReservedPagesStore : Type where
  numberOfReservedPages : Nat
  sizeOfReservedPage : Nat
  pending : List (Nat × List Nat)
  snapshots : List (Nat × Nat × List Nat)
  deriving DecidableEq

/-- The snapshots of one page, as `(checkpointNum, bytes)` pairs. -/
def snapshotsOfPage (st : ReservedPagesStore) (pageId : Nat) :
    List (Nat × List Nat) :=
  (st.snapshots.filter (fun s => s.2.1 = pageId)).map (fun s => (s.1, s.2.2))

/-- Keep whichever of the accumulator and the next snapshot has the larger
`checkpointNum` (the next one wins only when strictly newer). -/
def pickNewer (best : Option (Nat × List Nat)) (s : Nat × List Nat) :
    Option (Nat × List Nat) :=
  match best with
  | none => some s
  | some b => if b.1 < s.1 then some s else some b

/-- The newest (largest `checkpointNum`) snapshot of one page, when any
exists. -/
def newestSnapshotOfPage (st : ReservedPagesStore) (pageId : Nat) :
    Option (Nat × List Nat) :=
  (snapshotsOfPage st pageId).foldl pickNewer none

/-- Modelled from the spec: the body of `BCStateTran::loadReservedPage` is not
under src.  Per invariant 5 (§3) the read order is pending view first, then
the newest applicable per-checkpoint snapshot, then all-zero bytes; per §4.1
the call is constrained to `pageId < numberOfReservedPages` (out-of-range
reads fail, returning `none`). -/
def loadReservedPage (st : ReservedPagesStore) (pageId : Nat) :
    Option (List Nat) :=
  if pageId < st.numberOfReservedPages then
    match st.pending.lookup pageId with
    | some bytes => some bytes
    | none =>
      match newestSnapshotOfPage st pageId with
      | some s => some s.2
      | none => some (List.replicate st.sizeOfReservedPage 0)
  else none

/-- Modelled from the spec: the body of `BCStateTran::saveReservedPage` is not
under src.  Per §4.1 saves go to the pending view only; snapshots are never
touched.  Out-of-range writes are rejected. -/
def saveReservedPage (st : ReservedPagesStore) (pageId : Nat)
    (bytes : List Nat) : ReservedPagesStore :=
  if pageId < st.numberOfReservedPages then
    { st with pending := (pageId, bytes) :: st.pending.eraseP (fun e => pageId = e.1) }
  else st

/-! ## Fetching state machine and transfer completion (BCStateTran)

The header defines `FetchingState` (line 269) and declares
`addOnTransferringCompleteCallback` and the callback registry
`on_transferring_complete_cb_registry_` (line 520); the completion path in
`processData` is not under src. -/

/-- Translation of `BCStateTran::FetchingState` (header line 269). -/
inductive FetchingState : Type
  | NotFetching
  | GettingCheckpointSummaries
  | GettingMissingBlocks
  | GettingMissingResPages
  deriving DecidableEq

/-- Observable events emitted by the engine on the completion path:
committing the target `CheckpointDesc` inside the datastore transaction,
clearing the fetching flag, and invoking the registered
`onTransferringComplete(checkpointNum)` callbacks. -/
inductive STEvent : Type
  | commitCheckpointDesc (checkpointNum : Nat)
  | clearFetchingFlag
  | invokeOnTransferringComplete (checkpointNum : Nat)
  deriving DecidableEq

/-- The engine state relevant to completion: the current `FetchingState`, the
target checkpoint being fetched, and the log of transfers completed so far. -/
structure EngineState : Type where
  fetchingState : FetchingState
  targetCheckpoint : Nat
  completedTransfers : List Nat
  deriving DecidableEq

/-- External stimuli driving the fetching state machine (§4.1): the host
call `startCollectingState`, assembly of a summary certificate whose target
has missing blocks, the same with only reserved pages missing, completion of
block fetching, and acceptance of the reserved-pages virtual block. -/
inductive Stimulus : Type
  | startCollecting
  | certAssembledNeedBlocks (target : Nat)
  | certAssembledOnlyResPages (target : Nat)
  | allBlocksFetched
  | vblockAccepted
  deriving DecidableEq

/-- Modelled from the spec: the transition bodies of `BCStateTran` are not
under src.  One step of the fetching state machine (§4.1 transitions);
stimuli arriving in the wrong phase are irrelevant and dropped (§4.1.1).  On
`vblockAccepted` in `GettingMissingResPages` the engine commits
`CheckpointDesc(target)`, clears the fetching flag, invokes the
`onTransferringComplete` callbacks — in that order, per §4.1.4 — and
transitions to `NotFetching`. -/
def engineStep (st : EngineState) (s : Stimulus) : EngineState × List STEvent :=
  match s with
  | .startCollecting =>
    if st.fetchingState = .NotFetching then
      ({ st with fetchingState := .GettingCheckpointSummaries }, [])
    else (st, [])
  | .certAssembledNeedBlocks target =>
    if st.fetchingState = .GettingCheckpointSummaries then
      ({ st with fetchingState := .GettingMissingBlocks
                 targetCheckpoint := target }, [])
    else (st, [])
  | .certAssembledOnlyResPages target =>
    if st.fetchingState = .GettingCheckpointSummaries then
      ({ st with fetchingState := .GettingMissingResPages
                 targetCheckpoint := target }, [])
    else (st, [])
  | .allBlocksFetched =>
    if st.fetchingState = .GettingMissingBlocks then
      ({ st with fetchingState := .GettingMissingResPages }, [])
    else (st, [])
  | .vblockAccepted =>
    if st.fetchingState = .GettingMissingResPages then
      ({ st with fetchingState := .NotFetching
                 completedTransfers := st.completedTransfers ++ [st.targetCheckpoint] },
       [.commitCheckpointDesc st.targetCheckpoint, .clearFetchingFlag,
        .invokeOnTransferringComplete st.targetCheckpoint])
    else (st, [])

/-- Run the engine over a chronological list of stimuli, accumulating the
emitted events in order. -/
def engineRun (st : EngineState) (evs : List STEvent) :
    List Stimulus → EngineState × List STEvent
  | [] => (st, evs)
  | s :: rest =>
    let step := engineStep st s
    engineRun step.1 (evs ++ step.2) rest

/-- Initial engine state (§4.1: the initial state is `NotFetching`). -/
def engineInit : EngineState :=
  { fetchingState := .NotFetching, targetCheckpoint := 0,
    completedTransfers := [] }

/-! ## Theorems -/

/-- C9: For every reconfiguration command type in the closed set and every
sequence number, the default `IReconfigurationHandler::handle` overload
returns `true` and leaves the `ReconfigurationResponse` argument
unmodified. -/
theorem default_handle_returns_true_and_preserves_response
    (cmd : ReconfigurationCmd) (seqNum : Nat) (resp : ReconfigurationResponse) :
    IReconfigurationHandler.handle cmd seqNum resp = (true, resp) := by
  cases cmd <;> rfl

/-- C2: a reassembled block is accepted (written to `AppState`) exactly when
its recomputed digest equals the expected `digestOfNextRequiredBlock` of the
moment; a block whose recomputed digest differs is never written. -/
theorem accepted_blocks_match_expected_digest
    (computeDigestOfBlock : Nat → List Nat → Nat) (prevDigestOf : List Nat → Nat)
    (st : BlockFetchState) (block : List Nat) :
    (computeDigestOfBlock st.nextRequiredBlock block =
        st.digestOfNextRequiredBlock ∧
      (processBlockStep computeDigestOfBlock prevDigestOf st block).writtenBlocks
        = (st.nextRequiredBlock, block) :: st.writtenBlocks) ∨
    (computeDigestOfBlock st.nextRequiredBlock block ≠
        st.digestOfNextRequiredBlock ∧
      (processBlockStep computeDigestOfBlock prevDigestOf st block).writtenBlocks
        = st.writtenBlocks) := by
  by_cases h : computeDigestOfBlock st.nextRequiredBlock block =
      st.digestOfNextRequiredBlock
  · exact Or.inl ⟨h, by simp [processBlockStep, checkBlock, h]⟩
  · exact Or.inr ⟨h, by simp [processBlockStep, checkBlock, h]⟩

/-- C3: `markCheckpointAsStable n` deletes exactly the stored checkpoints
with `checkpointNum < n - maxStoredCheckpoints + 1`, together with their
reserved-page snapshots; and in the §8 scenario — stored checkpoints
`{3,…,12}` with `maxStoredCheckpoints = 10`, then `markCheckpointAsStable 12`
followed by `createCheckpointOfCurrentState 13` — checkpoint 3 ends up erased
(snapshot included), 13 is stored, and the stored count is 10. -/
theorem markCheckpointAsStable_prunes_exactly_below_threshold :
    (∀ (n : Nat) (st : CheckpointStore),
      (markCheckpointAsStable n st).checkpoints =
        st.checkpoints.filter
          (fun c => ¬ c < n - st.maxStoredCheckpoints + 1) ∧
      (markCheckpointAsStable n st).resPageSnapshots =
        st.resPageSnapshots.filter
          (fun c => ¬ c < n - st.maxStoredCheckpoints + 1)) ∧
    (let st0 : CheckpointStore :=
      { checkpoints := [3, 4, 5, 6, 7, 8, 9, 10, 11, 12],
        resPageSnapshots := [3, 4, 5, 6, 7, 8, 9, 10, 11, 12],
        maxStoredCheckpoints := 10 }
     let st2 := createCheckpointOfCurrentState 13 (markCheckpointAsStable 12 st0)
     3 ∉ st2.checkpoints ∧ 3 ∉ st2.resPageSnapshots ∧
       13 ∈ st2.checkpoints ∧ st2.checkpoints.length = 10) := by
  refine ⟨fun n st => ⟨rfl, rfl⟩, ?_⟩
  decide

/-- C1: a checkpoint-summary certificate built from any stream of
contributions records at most one contribution per sender (so its
contributors are distinct senders), and it is complete exactly when some
payload tuple `(lastBlock, digestOfLastBlock, digestOfResPagesDescriptor)`
was contributed by at least `f+1` of them; fewer contributors, or
contributors whose payloads are not identical, never complete it. -/
theorem certificate_complete_iff_quorum_of_identical_payloads
    (fVal : Nat) (msgs : List (Nat × CheckpointSummaryPayload)) :
    (certBuild msgs).Pairwise (fun a b => a.1 ≠ b.1) ∧
    (certIsComplete fVal (certBuild msgs) = true ↔
      ∃ p, fVal + 1 ≤
        ((certBuild msgs).filter (fun e => e.2 = p)).length) := by
  constructor
  · have key : ∀ (ms : List (Nat × CheckpointSummaryPayload))
        (acc : List (Nat × CheckpointSummaryPayload)),
        acc.Pairwise (fun a b => a.1 ≠ b.1) →
        (ms.foldl (fun acc m => certAdd acc m.1 m.2) acc).Pairwise
          (fun a b => a.1 ≠ b.1) := by
      intro ms
      induction ms with
      | nil => intro acc h; exact h
      | cons m rest ih =>
        intro acc h
        refine ih _ ?_
        unfold certAdd
        by_cases hdup : acc.any (fun c => c.1 = m.1)
        · simp only [hdup, if_true]; exact h
        · simp only [hdup, if_false]
          refine List.Pairwise.cons ?_ h
          intro b hb
          simp only [List.any_eq_true, decide_eq_true_eq] at hdup
          intro hEq
          exact hdup ⟨b, hb, hEq.symm⟩
    exact key msgs [] List.Pairwise.nil
  · unfold certIsComplete
    constructor
    · intro h
      rcases List.any_eq_true.mp h with ⟨c, _, hc⟩
      exact ⟨c.2, by simpa using hc⟩
    · intro ⟨p, hp⟩
      have hpos : 0 < ((certBuild msgs).filter (fun e => e.2 = p)).length :=
        Nat.lt_of_lt_of_le (Nat.succ_pos fVal) hp
      rcases List.exists_mem_of_length_pos hpos with ⟨c, hc⟩
      have hcp : c.2 = p := by
        have := List.of_mem_filter hc
        simpa using this
      refine List.any_eq_true.mpr ⟨c, List.mem_of_mem_filter hc, ?_⟩
      subst hcp
      simpa using hp

/-- Unfolding of `compareItemDataMsg`: it holds exactly on
(blockNumber descending, then chunkNumber ascending). -/
theorem compareItemDataMsg_eq_true_iff (l r : ItemDataMsg) :
    compareItemDataMsg l r = true ↔
      r.blockNumber < l.blockNumber ∨
        (l.blockNumber = r.blockNumber ∧ l.chunkNumber < r.chunkNumber) := by
  unfold compareItemDataMsg
  by_cases h : l.blockNumber = r.blockNumber <;> simp [h]

/-- Chunks are equivalent under `compareItemDataMsg` (neither precedes the
other) exactly when they agree on `blockNumber` and `chunkNumber`. -/
theorem compareItemDataMsg_equiv_iff (a b : ItemDataMsg) :
    (compareItemDataMsg a b = false ∧ compareItemDataMsg b a = false) ↔
      (a.blockNumber = b.blockNumber ∧ a.chunkNumber = b.chunkNumber) := by
  rw [← Bool.not_eq_true, ← Bool.not_eq_true,
    compareItemDataMsg_eq_true_iff, compareItemDataMsg_eq_true_iff]
  omega

/-- Transitivity of `compareItemDataMsg`. -/
theorem compareItemDataMsg_trans {a b c : ItemDataMsg}
    (h1 : compareItemDataMsg a b = true) (h2 : compareItemDataMsg b c = true) :
    compareItemDataMsg a c = true := by
  rw [compareItemDataMsg_eq_true_iff] at h1 h2 ⊢
  omega

/-- Every element of `pendingInsert x l` is `x` or comes from `l`. -/
theorem mem_pendingInsert {z x : ItemDataMsg} :
    ∀ {l : List ItemDataMsg}, z ∈ pendingInsert x l → z = x ∨ z ∈ l := by
  intro l
  induction l with
  | nil =>
    intro h
    simp only [pendingInsert, List.mem_singleton] at h
    exact Or.inl h
  | cons y ys ih =>
    intro h
    unfold pendingInsert at h
    by_cases h1 : compareItemDataMsg x y = true
    · rw [if_pos h1] at h
      simp only [List.mem_cons] at h
      rcases h with h | h | h
      · exact Or.inl h
      · exact Or.inr (by simp [h])
      · exact Or.inr (by simp [h])
    · rw [if_neg h1] at h
      by_cases h2 : compareItemDataMsg y x = true
      · rw [if_pos h2] at h
        simp only [List.mem_cons] at h
        rcases h with h | h
        · exact Or.inr (by simp [h])
        · rcases ih h with h' | h'
          · exact Or.inl h'
          · exact Or.inr (by simp [h'])
      · rw [if_neg h2] at h
        exact Or.inr h

/-- Sortedness under `compareItemDataMsg` is preserved by `pendingInsert`. -/
theorem pendingInsert_pairwise (x : ItemDataMsg) :
    ∀ {l : List ItemDataMsg},
      l.Pairwise (fun a b => compareItemDataMsg a b = true) →
      (pendingInsert x l).Pairwise (fun a b => compareItemDataMsg a b = true) := by
  intro l
  induction l with
  | nil => intro _; simp [pendingInsert]
  | cons y ys ih =>
    intro hs
    rcases List.pairwise_cons.mp hs with ⟨hy, hys⟩
    unfold pendingInsert
    by_cases h1 : compareItemDataMsg x y = true
    · rw [if_pos h1]
      refine List.pairwise_cons.mpr ⟨?_, hs⟩
      intro z hz
      rcases List.mem_cons.mp hz with h | h
      · exact h ▸ h1
      · exact compareItemDataMsg_trans h1 (hy z h)
    · rw [if_neg h1]
      by_cases h2 : compareItemDataMsg y x = true
      · rw [if_pos h2]
        refine List.pairwise_cons.mpr ⟨?_, ih hys⟩
        intro z hz
        rcases mem_pendingInsert hz with h | h
        · exact h ▸ h2
        · exact hy z h
      · rw [if_neg h2]
        exact hs

/-- C5: the pending-chunk buffer is totally ordered by `compareItemDataMsg`
(any two chunks are comparable or agree on both key fields), insertion keeps
it sorted, and iterating a sorted buffer visits chunks in (blockNumber
descending, chunkNumber ascending) order — all chunks of the highest pending
block first, and within a block in ascending chunk order. -/
theorem pendingItemDataMsgs_iterates_block_desc_chunk_asc
    (x : ItemDataMsg) (l : List ItemDataMsg)
    (hs : l.Pairwise (fun a b => compareItemDataMsg a b = true)) :
    (∀ a b : ItemDataMsg,
      compareItemDataMsg a b = true ∨ compareItemDataMsg b a = true ∨
        (a.blockNumber = b.blockNumber ∧ a.chunkNumber = b.chunkNumber)) ∧
    (pendingInsert x l).Pairwise (fun a b => compareItemDataMsg a b = true) ∧
    l.Pairwise (fun a b =>
      b.blockNumber < a.blockNumber ∨
        (a.blockNumber = b.blockNumber ∧ a.chunkNumber < b.chunkNumber)) := by
  refine ⟨?_, pendingInsert_pairwise x hs, ?_⟩
  · intro a b
    rw [compareItemDataMsg_eq_true_iff, compareItemDataMsg_eq_true_iff]
    omega
  · exact hs.imp (fun h => (compareItemDataMsg_eq_true_iff _ _).mp h)

/-- Witness for C5 at a concrete sorted buffer. -/
theorem pendingItemDataMsgs_iterates_block_desc_chunk_asc_witness :
    (([⟨5, 2, 1, [10]⟩, ⟨5, 2, 2, [11]⟩, ⟨4, 1, 1, [12]⟩] :
        List ItemDataMsg).Pairwise
      (fun a b => compareItemDataMsg a b = true)) ∧
    ((∀ a b : ItemDataMsg,
      compareItemDataMsg a b = true ∨ compareItemDataMsg b a = true ∨
        (a.blockNumber = b.blockNumber ∧ a.chunkNumber = b.chunkNumber)) ∧
    (pendingInsert ⟨6, 1, 1, [13]⟩
        [⟨5, 2, 1, [10]⟩, ⟨5, 2, 2, [11]⟩, ⟨4, 1, 1, [12]⟩]).Pairwise
      (fun a b => compareItemDataMsg a b = true) ∧
    ([⟨5, 2, 1, [10]⟩, ⟨5, 2, 2, [11]⟩, ⟨4, 1, 1, [12]⟩] :
        List ItemDataMsg).Pairwise (fun a b =>
      b.blockNumber < a.blockNumber ∨
        (a.blockNumber = b.blockNumber ∧ a.chunkNumber < b.chunkNumber))) :=
  ⟨by decide,
   pendingItemDataMsgs_iterates_block_desc_chunk_asc ⟨6, 1, 1, [13]⟩
     [⟨5, 2, 1, [10]⟩, ⟨5, 2, 2, [11]⟩, ⟨4, 1, 1, [12]⟩] (by decide)⟩

/-- C10: inserting a chunk whose `(blockNumber, chunkNumber)` pair matches a
chunk already buffered leaves `pendingItemDataMsgs` unchanged; the comparator
makes chunks equivalent exactly when those two fields agree, and a sorted
buffer holds at most one chunk per pair. -/
theorem duplicate_chunk_insert_is_noop
    (x y : ItemDataMsg) (l : List ItemDataMsg)
    (hs : l.Pairwise (fun a b => compareItemDataMsg a b = true))
    (hy : y ∈ l) (hbn : y.blockNumber = x.blockNumber)
    (hcn : y.chunkNumber = x.chunkNumber) :
    pendingInsert x l = l ∧
    (∀ a b : ItemDataMsg,
      (compareItemDataMsg a b = false ∧ compareItemDataMsg b a = false) ↔
        (a.blockNumber = b.blockNumber ∧ a.chunkNumber = b.chunkNumber)) ∧
    l.Pairwise (fun a b =>
      ¬ (a.blockNumber = b.blockNumber ∧ a.chunkNumber = b.chunkNumber)) := by
  refine ⟨?_, compareItemDataMsg_equiv_iff, ?_⟩
  · induction l with
    | nil => cases hy
    | cons a as ih =>
      rcases List.pairwise_cons.mp hs with ⟨ha, has⟩
      unfold pendingInsert
      by_cases h1 : compareItemDataMsg x a = true
      · exfalso
        rcases List.mem_cons.mp hy with h | h
        · rw [compareItemDataMsg_eq_true_iff] at h1
          rw [← h] at h1
          omega
        · have hax : compareItemDataMsg a x = true := by
            have := ha y h
            rw [compareItemDataMsg_eq_true_iff] at this ⊢
            omega
          have := compareItemDataMsg_trans h1 hax
          rw [compareItemDataMsg_eq_true_iff] at this
          omega
      · rw [if_neg h1]
        by_cases h2 : compareItemDataMsg a x = true
        · rw [if_pos h2]
          rcases List.mem_cons.mp hy with h | h
          · exfalso
            rw [compareItemDataMsg_eq_true_iff] at h2
            rw [← h] at h2
            omega
          · rw [ih has h]
        · rw [if_neg h2]
  · refine hs.imp ?_
    intro a b hab
    rw [compareItemDataMsg_eq_true_iff] at hab
    omega

/-- Witness for C10: a chunk with the key `(5, 1)` but different payload is
not inserted over the buffered chunk with the same key. -/
theorem duplicate_chunk_insert_is_noop_witness :
    (([⟨5, 1, 1, [9]⟩] : List ItemDataMsg).Pairwise
        (fun a b => compareItemDataMsg a b = true) ∧
      (⟨5, 1, 1, [9]⟩ : ItemDataMsg) ∈ ([⟨5, 1, 1, [9]⟩] : List ItemDataMsg) ∧
      (⟨5, 1, 1, [9]⟩ : ItemDataMsg).blockNumber =
        (⟨5, 1, 1, [7]⟩ : ItemDataMsg).blockNumber ∧
      (⟨5, 1, 1, [9]⟩ : ItemDataMsg).chunkNumber =
        (⟨5, 1, 1, [7]⟩ : ItemDataMsg).chunkNumber) ∧
    (pendingInsert ⟨5, 1, 1, [7]⟩ [⟨5, 1, 1, [9]⟩] = [⟨5, 1, 1, [9]⟩] ∧
    (∀ a b : ItemDataMsg,
      (compareItemDataMsg a b = false ∧ compareItemDataMsg b a = false) ↔
        (a.blockNumber = b.blockNumber ∧ a.chunkNumber = b.chunkNumber)) ∧
    ([⟨5, 1, 1, [9]⟩] : List ItemDataMsg).Pairwise (fun a b =>
      ¬ (a.blockNumber = b.blockNumber ∧ a.chunkNumber = b.chunkNumber))) :=
  ⟨⟨by decide, by decide, by decide, by decide⟩,
   duplicate_chunk_insert_is_noop ⟨5, 1, 1, [7]⟩ ⟨5, 1, 1, [9]⟩
     [⟨5, 1, 1, [9]⟩] (by decide) (by decide) (by decide) (by decide)⟩

/-- Unfolding of `DescOfVBlockForResPages.lt`: lexicographic with
`checkpointNum` as the primary component. -/
theorem descLt_eq_true_iff (a b : DescOfVBlockForResPages) :
    DescOfVBlockForResPages.lt a b = true ↔
      a.checkpointNum < b.checkpointNum ∨
        (a.checkpointNum = b.checkpointNum ∧
          a.lastCheckpointKnownToRequester <
            b.lastCheckpointKnownToRequester) := by
  unfold DescOfVBlockForResPages.lt
  by_cases h : a.checkpointNum = b.checkpointNum <;> simp [h]

/-- Transitivity of `DescOfVBlockForResPages.lt`. -/
theorem descLt_trans {a b c : DescOfVBlockForResPages}
    (h1 : DescOfVBlockForResPages.lt a b = true)
    (h2 : DescOfVBlockForResPages.lt b c = true) :
    DescOfVBlockForResPages.lt a c = true := by
  rw [descLt_eq_true_iff] at h1 h2 ⊢
  omega

/-- Every entry of `vblockMapInsert d v c` is the new entry or comes from
`c`. -/
theorem mem_vblockMapInsert {e : DescOfVBlockForResPages × List Nat}
    {d : DescOfVBlockForResPages} {v : List Nat} :
    ∀ {c : VBlockCache}, e ∈ vblockMapInsert d v c → e = (d, v) ∨ e ∈ c := by
  intro c
  induction c with
  | nil =>
    intro h
    simp only [vblockMapInsert, List.mem_singleton] at h
    exact Or.inl h
  | cons y ys ih =>
    intro h
    unfold vblockMapInsert at h
    by_cases h1 : DescOfVBlockForResPages.lt d y.1 = true
    · rw [if_pos h1] at h
      simp only [List.mem_cons] at h
      rcases h with h | h | h
      · exact Or.inl h
      · exact Or.inr (by simp [h])
      · exact Or.inr (by simp [h])
    · rw [if_neg h1] at h
      by_cases h2 : DescOfVBlockForResPages.lt y.1 d = true
      · rw [if_pos h2] at h
        simp only [List.mem_cons] at h
        rcases h with h | h
        · exact Or.inr (by simp [h])
        · rcases ih h with h' | h'
          · exact Or.inl h'
          · exact Or.inr (by simp [h'])
      · rw [if_neg h2] at h
        exact Or.inr h

/-- Sortedness (strictly ascending keys) is preserved by `vblockMapInsert`. -/
theorem vblockMapInsert_pairwise (d : DescOfVBlockForResPages) (v : List Nat) :
    ∀ {c : VBlockCache},
      c.Pairwise (fun a b => DescOfVBlockForResPages.lt a.1 b.1 = true) →
      (vblockMapInsert d v c).Pairwise
        (fun a b => DescOfVBlockForResPages.lt a.1 b.1 = true) := by
  intro c
  induction c with
  | nil => intro _; simp [vblockMapInsert]
  | cons y ys ih =>
    intro hs
    rcases List.pairwise_cons.mp hs with ⟨hy, hys⟩
    unfold vblockMapInsert
    by_cases h1 : DescOfVBlockForResPages.lt d y.1 = true
    · rw [if_pos h1]
      refine List.pairwise_cons.mpr ⟨?_, hs⟩
      intro z hz
      rcases List.mem_cons.mp hz with h | h
      · exact h ▸ h1
      · exact descLt_trans h1 (hy z h)
    · rw [if_neg h1]
      by_cases h2 : DescOfVBlockForResPages.lt y.1 d = true
      · rw [if_pos h2]
        refine List.pairwise_cons.mpr ⟨?_, ih hys⟩
        intro z hz
        rcases mem_vblockMapInsert hz with h | h
        · exact h ▸ h2
        · exact hy z h
      · rw [if_neg h2]
        exact hs

/-- Growth bound: `vblockMapInsert` adds at most one entry. -/
theorem vblockMapInsert_length (d : DescOfVBlockForResPages) (v : List Nat) :
    ∀ (c : VBlockCache), (vblockMapInsert d v c).length ≤ c.length + 1 := by
  intro c
  induction c with
  | nil => simp [vblockMapInsert]
  | cons y ys ih =>
    unfold vblockMapInsert
    by_cases h1 : DescOfVBlockForResPages.lt d y.1 = true
    · rw [if_pos h1]; simp
    · rw [if_neg h1]
      by_cases h2 : DescOfVBlockForResPages.lt y.1 d = true
      · rw [if_pos h2]
        simpa using Nat.succ_le_succ ih
      · rw [if_neg h2]; simp

/-- C4: the virtual-block cache key order is lexicographic with
`checkpointNum` primary; `setVBlockInCache` never grows the cache beyond
`kMaxVBlocksInCache = 28`; and on overflow the evicted entry is the front of
the ascending map, whose `checkpointNum` is the oldest (smallest) among all
entries. -/
theorem vblock_cache_bounded_lex_key_evicts_oldest
    (cache : VBlockCache) (d : DescOfVBlockForResPages) (v : List Nat)
    (hs : cache.Pairwise (fun a b => DescOfVBlockForResPages.lt a.1 b.1 = true))
    (hlen : cache.length ≤ kMaxVBlocksInCache) :
    (∀ a b : DescOfVBlockForResPages,
      DescOfVBlockForResPages.lt a b = true ↔
        a.checkpointNum < b.checkpointNum ∨
          (a.checkpointNum = b.checkpointNum ∧
            a.lastCheckpointKnownToRequester <
              b.lastCheckpointKnownToRequester)) ∧
    (setVBlockInCache cache d v).length ≤ kMaxVBlocksInCache ∧
    ((vblockMapInsert d v cache).length > kMaxVBlocksInCache →
      setVBlockInCache cache d v = (vblockMapInsert d v cache).drop 1 ∧
      ∀ hd, (vblockMapInsert d v cache).head? = some hd →
        ∀ e ∈ vblockMapInsert d v cache,
          hd.1.checkpointNum ≤ e.1.checkpointNum) := by
  have hins := vblockMapInsert_length d v cache
  refine ⟨descLt_eq_true_iff, ?_, ?_⟩
  · unfold setVBlockInCache
    by_cases hov : (vblockMapInsert d v cache).length > kMaxVBlocksInCache
    · rw [if_pos hov]
      simp only [List.length_drop]
      omega
    · rw [if_neg hov]
      omega
  · intro hov
    constructor
    · unfold setVBlockInCache
      rw [if_pos hov]
    · intro hd hhd e he
      have hps := vblockMapInsert_pairwise d v hs
      cases hc : vblockMapInsert d v cache with
      | nil => rw [hc] at hhd; cases hhd
      | cons a rest =>
        rw [hc] at hhd he hps
        have ha : a = hd := by
          simpa using hhd
        rcases List.pairwise_cons.mp hps with ⟨hfirst, _⟩
        rcases List.mem_cons.mp he with h | h
        · rw [ha] at h
          rw [h]
        · have := hfirst e h
          rw [descLt_eq_true_iff] at this
          rw [← ha]
          omega

/-- A concrete full cache (28 entries, keys with `checkpointNum = 0,…,27`)
for the C4 witness. -/
def vblockCacheFull : VBlockCache :=
  (List.range 28).map
    (fun i =>
      ({ checkpointNum := i, lastCheckpointKnownToRequester := 0 }, ([] : List Nat)))

/-- Witness for C4: inserting a 29th distinct key into the full 28-entry
cache keeps the size at 28 and evicts the front (oldest `checkpointNum`)
entry. -/
theorem vblock_cache_bounded_lex_key_evicts_oldest_witness :
    (vblockCacheFull.Pairwise
        (fun a b => DescOfVBlockForResPages.lt a.1 b.1 = true) ∧
      vblockCacheFull.length ≤ kMaxVBlocksInCache) ∧
    ((∀ a b : DescOfVBlockForResPages,
      DescOfVBlockForResPages.lt a b = true ↔
        a.checkpointNum < b.checkpointNum ∨
          (a.checkpointNum = b.checkpointNum ∧
            a.lastCheckpointKnownToRequester <
              b.lastCheckpointKnownToRequester)) ∧
    (setVBlockInCache vblockCacheFull ⟨28, 0⟩ [1]).length ≤
      kMaxVBlocksInCache ∧
    ((vblockMapInsert ⟨28, 0⟩ [1] vblockCacheFull).length >
        kMaxVBlocksInCache →
      setVBlockInCache vblockCacheFull ⟨28, 0⟩ [1] =
        (vblockMapInsert ⟨28, 0⟩ [1] vblockCacheFull).drop 1 ∧
      ∀ hd, (vblockMapInsert ⟨28, 0⟩ [1] vblockCacheFull).head? = some hd →
        ∀ e ∈ vblockMapInsert ⟨28, 0⟩ [1] vblockCacheFull,
          hd.1.checkpointNum ≤ e.1.checkpointNum)) :=
  ⟨⟨by decide, by decide⟩,
   vblock_cache_bounded_lex_key_evicts_oldest vblockCacheFull ⟨28, 0⟩ [1]
     (by decide) (by decide)⟩

/-- One `pickNewer` step: the result is a snapshot at least as new as both
the accumulator and the new element, and is one of the two. -/
theorem pickNewer_step (acc : Option (Nat × List Nat)) (y : Nat × List Nat) :
    ∃ c, pickNewer acc y = some c ∧ y.1 ≤ c.1 ∧
      (∀ b, acc = some b → b.1 ≤ c.1) ∧ (c = y ∨ acc = some c) := by
  cases acc with
  | none =>
    refine ⟨y, rfl, Nat.le_refl _, ?_, Or.inl rfl⟩
    intro b hb
    cases hb
  | some b =>
    by_cases h : b.1 < y.1
    · refine ⟨y, ?_, Nat.le_refl _, ?_, Or.inl rfl⟩
      · simp [pickNewer, h]
      · intro b' hb'
        cases hb'
        omega
    · refine ⟨b, ?_, by omega, ?_, Or.inr rfl⟩
      · simp [pickNewer, h]
      · intro b' hb'
        cases hb'
        exact Nat.le_refl _

/-- Folding `pickNewer` over a snapshot list yields a maximal-`checkpointNum`
element of the list (or of the accumulator). -/
theorem foldl_pickNewer_max (l : List (Nat × List Nat)) :
    ∀ (acc : Option (Nat × List Nat)) (a : Nat × List Nat),
      l.foldl pickNewer acc = some a →
      (a ∈ l ∨ acc = some a) ∧ (∀ x ∈ l, x.1 ≤ a.1) ∧
        (∀ b, acc = some b → b.1 ≤ a.1) := by
  induction l with
  | nil =>
    intro acc a h
    simp only [List.foldl_nil] at h
    exact ⟨Or.inr h, by simp, fun b hb => by rw [hb] at h; cases h; omega⟩
  | cons y ys ih =>
    intro acc a h
    simp only [List.foldl_cons] at h
    rcases pickNewer_step acc y with ⟨c, hc, hyc, haccc, hco⟩
    rw [hc] at h
    rcases ih (some c) a h with ⟨hmem, hall, hacc⟩
    have hca : c.1 ≤ a.1 := hacc c rfl
    refine ⟨?_, ?_, ?_⟩
    · rcases hmem with hm | hm
      · exact Or.inl (List.mem_cons_of_mem y hm)
      · cases hm
        rcases hco with hco | hco
        · exact Or.inl (hco ▸ List.mem_cons_self a ys)
        · exact Or.inr hco
    · intro x hx
      rcases List.mem_cons.mp hx with hx | hx
      · subst hx
        omega
      · exact hall x hx
    · intro b hb
      have := haccc b hb
      omega

/-- C8: for an in-range `pageId`, `loadReservedPage` returns the pending-view
copy when one exists, otherwise the newest per-checkpoint snapshot of that
page (newest: its `checkpointNum` dominates every snapshot of the page),
otherwise all-zero bytes; and `saveReservedPage` writes only to the pending
view, leaving every snapshot untouched. -/
theorem loadReservedPage_priority_and_save_pending_only
    (st : ReservedPagesStore) (pageId : Nat)
    (hp : pageId < st.numberOfReservedPages) :
    (∀ bytes, st.pending.lookup pageId = some bytes →
      loadReservedPage st pageId = some bytes) ∧
    (st.pending.lookup pageId = none →
      ∀ cp bytes, newestSnapshotOfPage st pageId = some (cp, bytes) →
        loadReservedPage st pageId = some bytes ∧
        (cp, bytes) ∈ snapshotsOfPage st pageId ∧
        ∀ x ∈ snapshotsOfPage st pageId, x.1 ≤ cp) ∧
    (st.pending.lookup pageId = none →
      newestSnapshotOfPage st pageId = none →
      loadReservedPage st pageId =
        some (List.replicate st.sizeOfReservedPage 0)) ∧
    (∀ bytes, (saveReservedPage st pageId bytes).snapshots = st.snapshots ∧
      (saveReservedPage st pageId bytes).pending.lookup pageId = some bytes) := by
  refine ⟨?_, ?_, ?_, ?_⟩
  · intro bytes hpend
    unfold loadReservedPage
    rw [if_pos hp, hpend]
  · intro hpend cp bytes hnew
    refine ⟨?_, ?_, ?_⟩
    · unfold loadReservedPage
      rw [if_pos hp, hpend, hnew]
    · rcases foldl_pickNewer_max (snapshotsOfPage st pageId) none (cp, bytes)
        hnew with ⟨hmem, _, _⟩
      rcases hmem with hm | hm
      · exact hm
      · cases hm
    · rcases foldl_pickNewer_max (snapshotsOfPage st pageId) none (cp, bytes)
        hnew with ⟨_, hall, _⟩
      exact hall
  · intro hpend hnone
    unfold loadReservedPage
    rw [if_pos hp, hpend, hnone]
  · intro bytes
    unfold saveReservedPage
    rw [if_pos hp]
    exact ⟨rfl, by simp [List.lookup]⟩

/-- Witness for C8 at a concrete reserved-page store: page 1 has no pending
copy and two snapshots (checkpoints 1 and 2); the load resolves to the
checkpoint-2 snapshot. -/
theorem loadReservedPage_priority_and_save_pending_only_witness :
    ((1 : Nat) <
      (ReservedPagesStore.mk 2 3 [(0, [1, 2, 3])] [(1, 1, [4]), (2, 1, [5])]
        ).numberOfReservedPages) ∧
    ((∀ bytes,
      (ReservedPagesStore.mk 2 3 [(0, [1, 2, 3])] [(1, 1, [4]), (2, 1, [5])]
        ).pending.lookup 1 = some bytes →
      loadReservedPage
        (ReservedPagesStore.mk 2 3 [(0, [1, 2, 3])] [(1, 1, [4]), (2, 1, [5])])
        1 = some bytes) ∧
    ((ReservedPagesStore.mk 2 3 [(0, [1, 2, 3])] [(1, 1, [4]), (2, 1, [5])]
        ).pending.lookup 1 = none →
      ∀ cp bytes, newestSnapshotOfPage
          (ReservedPagesStore.mk 2 3 [(0, [1, 2, 3])]
            [(1, 1, [4]), (2, 1, [5])]) 1 = some (cp, bytes) →
        loadReservedPage
          (ReservedPagesStore.mk 2 3 [(0, [1, 2, 3])]
            [(1, 1, [4]), (2, 1, [5])]) 1 = some bytes ∧
        (cp, bytes) ∈ snapshotsOfPage
          (ReservedPagesStore.mk 2 3 [(0, [1, 2, 3])]
            [(1, 1, [4]), (2, 1, [5])]) 1 ∧
        ∀ x ∈ snapshotsOfPage
          (ReservedPagesStore.mk 2 3 [(0, [1, 2, 3])]
            [(1, 1, [4]), (2, 1, [5])]) 1, x.1 ≤ cp) ∧
    ((ReservedPagesStore.mk 2 3 [(0, [1, 2, 3])] [(1, 1, [4]), (2, 1, [5])]
        ).pending.lookup 1 = none →
      newestSnapshotOfPage
        (ReservedPagesStore.mk 2 3 [(0, [1, 2, 3])] [(1, 1, [4]), (2, 1, [5])])
        1 = none →
      loadReservedPage
        (ReservedPagesStore.mk 2 3 [(0, [1, 2, 3])] [(1, 1, [4]), (2, 1, [5])])
        1 = some (List.replicate
          (ReservedPagesStore.mk 2 3 [(0, [1, 2, 3])]
            [(1, 1, [4]), (2, 1, [5])]).sizeOfReservedPage 0)) ∧
    (∀ bytes,
      (saveReservedPage
        (ReservedPagesStore.mk 2 3 [(0, [1, 2, 3])] [(1, 1, [4]), (2, 1, [5])])
        1 bytes).snapshots =
        (ReservedPagesStore.mk 2 3 [(0, [1, 2, 3])] [(1, 1, [4]), (2, 1, [5])]
          ).snapshots ∧
      (saveReservedPage
        (ReservedPagesStore.mk 2 3 [(0, [1, 2, 3])] [(1, 1, [4]), (2, 1, [5])])
        1 bytes).pending.lookup 1 = some bytes)) :=
  ⟨by decide,
   loadReservedPage_priority_and_save_pending_only
     (ReservedPagesStore.mk 2 3 [(0, [1, 2, 3])] [(1, 1, [4]), (2, 1, [5])])
     1 (by decide)⟩

theorem checkValidity_accept (lastMap : Nat → Nat) (r m : Nat)
    (h : lastMap r < m) :
    checkValidityAndSaveMsgSeqNum lastMap r m false =
      (true, updateLast lastMap r m) := by
  unfold checkValidityAndSaveMsgSeqNum
  rw [if_pos (Or.inl h)]

theorem checkValidity_drop (lastMap : Nat → Nat) (r m : Nat)
    (h : m ≤ lastMap r) :
    checkValidityAndSaveMsgSeqNum lastMap r m false = (false, lastMap) := by
  unfold checkValidityAndSaveMsgSeqNum
  rw [if_neg]
  intro hc
  rcases hc with hc | hc
  · omega
  · cases hc

theorem updateLast_same (l : Nat → Nat) (r m : Nat) :
    updateLast l r m r = m := by
  simp [updateLast]

theorem updateLast_other (l : Nat → Nat) (r m x : Nat) (h : x ≠ r) :
    updateLast l r m x = l x := by
  simp [updateLast, h]

theorem runMsgSeqNums_invariant (events : List (Nat × Nat × Bool)) :
    ∀ (lastMap : Nat → Nat) (acceptedLog : List (Nat × Nat)),
      (∀ e ∈ events, e.2.2 = false) →
      (∀ p ∈ acceptedLog, p.2 ≤ lastMap p.1) →
      (∀ s, ((acceptedLog.filter (fun a => a.1 = s)).map
        (fun a => a.2)).Pairwise (· < ·)) →
      (∀ p ∈ (runMsgSeqNums lastMap acceptedLog events).2,
        p.2 ≤ (runMsgSeqNums lastMap acceptedLog events).1 p.1) ∧
      (∀ s, (((runMsgSeqNums lastMap acceptedLog events).2.filter
        (fun a => a.1 = s)).map (fun a => a.2)).Pairwise (· < ·)) := by
  induction events with
  | nil =>
    intro lastMap acceptedLog _ hb hsorted
    exact ⟨hb, hsorted⟩
  | cons e rest ih =>
    intro lastMap acceptedLog hw hb hsorted
    obtain ⟨r, m, w⟩ := e
    have hwf : w = false := hw (r, m, w) (List.mem_cons_self _ _)
    subst hwf
    have hwrest : ∀ e ∈ rest, e.2.2 = false :=
      fun e he => hw e (List.mem_cons_of_mem _ he)
    by_cases hacc : lastMap r < m
    · have hstep := checkValidity_accept lastMap r m hacc
      simp only [runMsgSeqNums, hstep]
      refine ih _ _ hwrest ?_ ?_
      · intro p hp
        rcases List.mem_append.mp hp with hp | hp
        · have hple := hb p hp
          by_cases hpr : p.1 = r
          · rw [hpr, updateLast_same]
            rw [hpr] at hple
            omega
          · rw [updateLast_other _ _ _ _ hpr]
            exact hple
        · simp only [List.mem_singleton] at hp
          subst hp
          simp [updateLast_same]
      · intro s
        rw [List.filter_append, List.map_append]
        by_cases hsr : s = r
        · subst hsr
          refine List.pairwise_append.mpr ⟨hsorted s, ?_, ?_⟩
          · simp
          · intro a ha b hbmem
            have hfilter : (([(s, m)] : List (Nat × Nat)).filter
                (fun p => decide (p.1 = s))) = [(s, m)] := by simp
            rw [hfilter] at hbmem
            simp only [List.map_cons, List.map_nil,
              List.mem_singleton] at hbmem
            subst hbmem
            simp only [List.mem_map] at ha
            rcases ha with ⟨p, hpmem, hpa⟩
            have hps : p.1 = s := by
              have := List.of_mem_filter hpmem
              simpa using this
            have hple := hb p (List.mem_of_mem_filter hpmem)
            rw [hps] at hple
            omega
        · have hnil : (([(r, m)] : List (Nat × Nat)).filter
              (fun a => decide (a.1 = s))) = [] := by
            simp only [List.filter_cons, List.filter_nil,
              decide_eq_true_eq]
            rw [if_neg (fun h => hsr h.symm)]
          rw [hnil]
          simpa using hsorted s
    · have hstep := checkValidity_drop lastMap r m (by omega)
      simp only [runMsgSeqNums, hstep]
      exact ih _ _ hwrest hb hsorted

/-- C6: on traces without resync-window re-acceptance, the accepted
`msgSeqNum`s of every sender form a strictly increasing sequence; a message
whose `msgSeqNum` does not exceed the last accepted value of the sender is, outside
the window, dropped without any state change; and within the window
re-acceptance is permitted. -/
theorem accepted_msg_seq_nums_strictly_increasing
    (last0 : Nat → Nat) (events : List (Nat × Nat × Bool))
    (hw : ∀ e ∈ events, e.2.2 = false) :
    (∀ s, (((runMsgSeqNums last0 [] events).2.filter
      (fun a => a.1 = s)).map (fun a => a.2)).Pairwise (· < ·)) ∧
    (∀ (lastMap : Nat → Nat) (r m : Nat), m ≤ lastMap r →
      checkValidityAndSaveMsgSeqNum lastMap r m false = (false, lastMap)) ∧
    (∀ (lastMap : Nat → Nat) (r m : Nat),
      (checkValidityAndSaveMsgSeqNum lastMap r m true).1 = true) := by
  refine ⟨?_, ?_, ?_⟩
  · exact (runMsgSeqNums_invariant events last0 [] hw (by simp)
      (by simp)).2
  · intro lastMap r m hle
    unfold checkValidityAndSaveMsgSeqNum
    rw [if_neg]
    intro h
    rcases h with h | h
    · omega
    · cases h
  · intro lastMap r m
    unfold checkValidityAndSaveMsgSeqNum
    rw [if_pos (Or.inr rfl)]

/-- Witness for C6 on a concrete trace: sender 1 sends sequence numbers 5,
then 3 (dropped), then 7; no resync-window re-acceptance occurs. -/
theorem accepted_msg_seq_nums_strictly_increasing_witness :
    (∀ e ∈ ([(1, 5, false), (1, 3, false), (1, 7, false)] :
        List (Nat × Nat × Bool)), e.2.2 = false) ∧
    ((∀ s, (((runMsgSeqNums (fun _ => 0) []
        [(1, 5, false), (1, 3, false), (1, 7, false)]).2.filter
      (fun a => a.1 = s)).map (fun a => a.2)).Pairwise (· < ·)) ∧
    (∀ (lastMap : Nat → Nat) (r m : Nat), m ≤ lastMap r →
      checkValidityAndSaveMsgSeqNum lastMap r m false = (false, lastMap)) ∧
    (∀ (lastMap : Nat → Nat) (r m : Nat),
      (checkValidityAndSaveMsgSeqNum lastMap r m true).1 = true)) :=
  ⟨by decide,
   accepted_msg_seq_nums_strictly_increasing (fun _ => 0)
     [(1, 5, false), (1, 3, false), (1, 7, false)] (by decide)⟩

/-- Each engine step either emits no event and leaves the completed-transfer
log unchanged, or emits the completion triple (commit, clear flag, invoke
callbacks) and appends its target to the completed-transfer log. -/
theorem engineStep_cases (st : EngineState) (s : Stimulus) :
    ((engineStep st s).2 = [] ∧
      (engineStep st s).1.completedTransfers = st.completedTransfers) ∨
    ((engineStep st s).2 =
        [STEvent.commitCheckpointDesc st.targetCheckpoint,
         STEvent.clearFetchingFlag,
         STEvent.invokeOnTransferringComplete st.targetCheckpoint] ∧
      (engineStep st s).1.completedTransfers =
        st.completedTransfers ++ [st.targetCheckpoint]) := by
  cases s <;> simp only [engineStep] <;> split <;>
    first
      | exact Or.inl ⟨rfl, rfl⟩
      | exact Or.inr ⟨rfl, rfl⟩

/-- Within the completion triple, every prefix holds at least as many commit
events as callback invocations. -/
theorem count_take_chunk_le (cp t : Nat) (j : Nat) :
    (([STEvent.commitCheckpointDesc t, STEvent.clearFetchingFlag,
        STEvent.invokeOnTransferringComplete t].take j).count
      (STEvent.invokeOnTransferringComplete cp)) ≤
    (([STEvent.commitCheckpointDesc t, STEvent.clearFetchingFlag,
        STEvent.invokeOnTransferringComplete t].take j).count
      (STEvent.commitCheckpointDesc cp)) := by
  by_cases htc : t = cp <;>
    rcases j with _ | _ | _ | j <;>
      simp [htc, List.count_cons, List.count_nil, List.take_succ_cons]

/-- Counting invariant of `engineRun`: callback invocations for checkpoint
`cp` match completed transfers of `cp` one to one, commits match them too,
and in every prefix of the event trace invocations never outnumber
commits. -/
theorem engineRun_counts (cp : Nat) (stimuli : List Stimulus) :
    ∀ (st : EngineState) (evs : List STEvent),
      evs.count (STEvent.invokeOnTransferringComplete cp) =
        st.completedTransfers.count cp →
      evs.count (STEvent.commitCheckpointDesc cp) =
        st.completedTransfers.count cp →
      (∀ k, ((evs.take k).count (STEvent.invokeOnTransferringComplete cp)) ≤
        ((evs.take k).count (STEvent.commitCheckpointDesc cp))) →
      ((engineRun st evs stimuli).2.count
          (STEvent.invokeOnTransferringComplete cp) =
        (engineRun st evs stimuli).1.completedTransfers.count cp) ∧
      ((engineRun st evs stimuli).2.count (STEvent.commitCheckpointDesc cp) =
        (engineRun st evs stimuli).1.completedTransfers.count cp) ∧
      (∀ k, (((engineRun st evs stimuli).2.take k).count
          (STEvent.invokeOnTransferringComplete cp)) ≤
        (((engineRun st evs stimuli).2.take k).count
          (STEvent.commitCheckpointDesc cp))) := by
  induction stimuli with
  | nil =>
    intro st evs h1 h2 h3
    exact ⟨h1, h2, h3⟩
  | cons s rest ih =>
    intro st evs h1 h2 h3
    simp only [engineRun]
    rcases engineStep_cases st s with ⟨he, hc⟩ | ⟨he, hc⟩
    · rw [he, List.append_nil]
      exact ih _ _ (by rw [hc]; exact h1) (by rw [hc]; exact h2) h3
    · rw [he]
      refine ih _ _ ?_ ?_ ?_
      · rw [hc]
        by_cases htc : st.targetCheckpoint = cp <;>
          simp [List.count_append, List.count_cons, htc, h1]
      · rw [hc]
        by_cases htc : st.targetCheckpoint = cp <;>
          simp [List.count_append, List.count_cons, htc, h2]
      · intro k
        rw [List.take_append_eq_append_take, List.count_append,
          List.count_append]
        have hchunk := count_take_chunk_le cp st.targetCheckpoint
          (k - evs.length)
        have hevs := h3 k
        omega

/-- C7: over every run of the engine from its initial state, the
`onTransferringComplete(cp)` callbacks are invoked exactly once per
completed transfer targeting `cp` (their count equals the count of
completed transfers, which equals the count of committed `CheckpointDesc`s),
and never before the committing datastore transaction: in every prefix of
the event trace, invocations never outnumber commits. -/
theorem onTransferringComplete_exactly_once_after_commit
    (stimuli : List Stimulus) (cp : Nat) :
    ((engineRun engineInit [] stimuli).2.count
        (STEvent.invokeOnTransferringComplete cp) =
      (engineRun engineInit [] stimuli).1.completedTransfers.count cp) ∧
    ((engineRun engineInit [] stimuli).2.count
        (STEvent.commitCheckpointDesc cp) =
      (engineRun engineInit [] stimuli).1.completedTransfers.count cp) ∧
    (∀ k, (((engineRun engineInit [] stimuli).2.take k).count
        (STEvent.invokeOnTransferringComplete cp)) ≤
      (((engineRun engineInit [] stimuli).2.take k).count
        (STEvent.commitCheckpointDesc cp))) :=
  engineRun_counts cp stimuli engineInit [] (by simp [engineInit])
    (by simp [engineInit]) (by simp)

end ConcordBCST
